import Mathlib

/-!
# Verification of the sos worker-pool dispatcher (`src/sos/workers.py`)

A shallow embedding of the `WorkerManager` class and of the
`SoS_Worker.push_env` / `SoS_Worker.pop_env` context-stack operations,
together with theorems settling the spec's claims about them.

Modelling conventions:
* messages are abstracted as `Nat`;
* ports are `Nat`;
* `time.time()` values are passed in explicitly as `Nat` arguments (`now`);
* a Python `dict` (`_step_requests`) is an insertion-ordered association
  list with at-most-one entry per key, updated in place by assignment;
* a Python `set` (`_available_ports`, `_claimed_ports`) is a duplicate-free
  list; `set.pop()` removes the head (the source's pop order is
  unspecified, so any deterministic choice is a faithful refinement);
* the backend zmq socket is modelled by recording the replies sent
  (`Reply`), and, for the receive loops of `check_workers` / `kill_all`,
  by a list of the port numbers the successive `poll`/`recv` calls would
  deliver (an exhausted list models `poll` timing out);
* a raised exception (`KeyError` from `set.remove`, `ProcessKilled`) is a
  `Bool` flag in the result, with the state reflecting the mutations made
  before the raise.
-/

namespace SosWorkers

/-- A reply the manager writes to the worker backend socket:
`payload m` for `send(msg)` / `send_pyobj(msg)` of a real request,
`empty` for `send_pyobj({})`, and `term` for the `send_pyobj(None)`
termination sentinel. -/
inductive Reply where
  | payload (m : Nat)
  | empty
  | term
deriving DecidableEq, Repr

/-- Python `d[p] = m` on an insertion-ordered dict modelled as an
association list: replace in place if the key is present, else append. -/
def dictInsert (d : List (Nat × Nat)) (p m : Nat) : List (Nat × Nat) :=
  if d.any (fun q => q.1 == p) then
    d.map (fun q => if q.1 = p then (p, m) else q)
  else
    d ++ [(p, m)]

/-- Python `p in d` / `d.get(p)` on the association list. -/
def dictLookup : List (Nat × Nat) → Nat → Option Nat
  | [], _ => none
  | q :: d, p => if q.1 = p then some q.2 else dictLookup d p

/-- Python `d.pop(p)`: drop the entry for key `p`. -/
def dictRemove (d : List (Nat × Nat)) (p : Nat) : List (Nat × Nat) :=
  d.filter (fun q => q.1 != p)

/-- Python `s.add(p)` on a set modelled as a duplicate-free list. -/
def setAdd (l : List Nat) (p : Nat) : List Nat :=
  if p ∈ l then l else p :: l

/-- Python `s.remove(p)` / `s.discard(p)` on the list model (the caller
records separately whether `remove` would raise `KeyError`). -/
def setRemove (l : List Nat) (p : Nat) : List Nat :=
  l.filter (fun q => q != p)

/-- The mutable state of `WorkerManager`.  `workers` keeps one liveness
flag per tracked worker process (`true` = `is_alive()`); all other fields
are the attributes of the Python object of the same name. -/
structure WorkerManager where
  max_workers : Nat
  workers : List Bool
  num_workers : Nat
  n_requested : Nat
  n_processed : Nat
  worker_alive_time : Nat
  last_avail_time : Nat
  substep_requests : List Nat
  step_requests : List (Nat × Nat)
  available_ports : List Nat
  claimed_ports : List Nat
deriving DecidableEq, Repr

namespace WorkerManager

/-- `WorkerManager.start`: spawn one worker process and track it. -/
def start (s : WorkerManager) : WorkerManager :=
  { s with workers := s.workers ++ [true], num_workers := s.num_workers + 1 }

/-- `WorkerManager.__init__(max_workers, backend_socket)` at wall-clock
time `now`: empty queues and port sets, then `self.start()`. -/
def init (max_workers now : Nat) : WorkerManager :=
  WorkerManager.start
    { max_workers := max_workers
      workers := []
      num_workers := 0
      n_requested := 0
      n_processed := 0
      worker_alive_time := now
      last_avail_time := now
      substep_requests := []
      step_requests := []
      available_ports := []
      claimed_ports := [] }

/-- `WorkerManager.add_request(port, msg)`: a portless request is a
substep and is inserted at index 0 of the substep list; a ported request
overwrites the dict entry for that port.  Then, if at least one request
has been processed, no port is available and the pool is below the cap,
spawn a worker. -/
def add_request (s : WorkerManager) (port : Option Nat) (msg : Nat) :
    WorkerManager :=
  let s1 :=
    match port with
    | none => { s with substep_requests := msg :: s.substep_requests }
    | some p => { s with step_requests := dictInsert s.step_requests p msg }
  let s2 := { s1 with n_requested := s1.n_requested + 1 }
  if 0 < s2.n_processed ∧ s2.available_ports = [] ∧
      s2.num_workers < s2.max_workers then
    s2.start
  else
    s2

/-- `WorkerManager.worker_available()`: pop an available port and claim
it, or — lacking one — spawn a worker when below the cap and return
`None`. -/
def worker_available (s : WorkerManager) : WorkerManager × Option Nat :=
  match s.available_ports with
  | claimed :: rest =>
      ({ s with
          available_ports := rest
          claimed_ports := setAdd s.claimed_ports claimed }, some claimed)
  | [] =>
      (if s.num_workers < s.max_workers then s.start else s, none)

/-- Result of `process_request`: the state after the call (including the
mutations made before any raise), the reply written to the backend
socket, and whether the call raised (`KeyError` from
`self._claimed_ports.remove(port)`). -/
structure PRResult where
  state : WorkerManager
  reply : Reply
  raised : Bool
deriving DecidableEq, Repr

/-- `WorkerManager.process_request(port)` at time `now`.  Branch order as
in the source: pending step/workflow request for this exact port, then
claimed port, then substep queue (`list.pop()` takes the LAST element),
then mark the port available. -/
def process_request (s : WorkerManager) (port now : Nat) : PRResult :=
  match dictLookup s.step_requests port with
  | some m =>
      let s1 := { s with
        step_requests := dictRemove s.step_requests port
        last_avail_time := now
        n_processed := s.n_processed + 1 }
      if port ∈ s1.claimed_ports then
        { state := { s1 with claimed_ports := setRemove s1.claimed_ports port }
          reply := Reply.payload m
          raised := false }
      else
        { state := s1, reply := Reply.payload m, raised := true }
  | none =>
      if port ∈ s.claimed_ports then
        { state := s, reply := Reply.empty, raised := false }
      else
        match s.substep_requests.getLast? with
        | some m =>
            { state := { s with
                substep_requests := s.substep_requests.dropLast
                last_avail_time := now
                n_processed := s.n_processed + 1
                available_ports :=
                  if port ∈ s.available_ports then
                    setRemove s.available_ports port
                  else s.available_ports }
              reply := Reply.payload m
              raised := false }
        | none =>
            { state := { s with available_ports := setAdd s.available_ports port }
              reply := Reply.empty
              raised := false }

/-- The idle-reclamation loop at the end of `check_workers`:
`while self._num_workers > 1 and poll(100): recv port; ...`.  `signals`
is the sequence of ports successive `recv_pyobj` calls would yield. -/
def reclaimLoop : WorkerManager → List Nat → WorkerManager × List Reply
  | s, [] => (s, [])
  | s, port :: rest =>
      if 1 < s.num_workers then
        if port ∈ s.claimed_ports then
          let r := reclaimLoop s rest
          (r.1, Reply.empty :: r.2)
        else
          let s1 := { s with
            available_ports :=
              if port ∈ s.available_ports then
                setRemove s.available_ports port
              else s.available_ports
            num_workers := s.num_workers - 1 }
          let r := reclaimLoop s1 rest
          (r.1, Reply.term :: r.2)
      else
        (s, [])

/-- `WorkerManager.check_workers()` at time `now`.  Returns the state,
whether `ProcessKilled` was raised, and the replies the reclamation loop
sent.  Liveness: only when more than 5 time units passed since the last
check, prune dead workers and raise when the list shrank below the
counter.  Reclamation: only when no dispatch succeeded within the last 5
time units. -/
def check_workers (s : WorkerManager) (now : Nat) (signals : List Nat) :
    WorkerManager × Bool × List Reply :=
  if 5 < now - s.worker_alive_time then
    let s1 := { s with
      worker_alive_time := now
      workers := s.workers.filter (fun a => a) }
    if s1.workers.length < s1.num_workers then
      (s1, true, [])
    else if now - s1.last_avail_time < 5 then
      (s1, false, [])
    else
      let r := reclaimLoop s1 signals
      (r.1, false, r.2)
  else if now - s.last_avail_time < 5 then
    (s, false, [])
  else
    let r := reclaimLoop s signals
    (r.1, false, r.2)

/-- `WorkerManager.kill_all()`: answer each pending readiness signal with
the termination sentinel while workers remain. -/
def kill_all : WorkerManager → List Nat → WorkerManager × List Reply
  | s, [] => (s, [])
  | s, _ :: rest =>
      if 0 < s.num_workers then
        let s1 := { s with num_workers := s.num_workers - 1 }
        let r := kill_all s1 rest
        (r.1, Reply.term :: r.2)
      else
        (s, [])

end WorkerManager

/-- One public operation on the manager, with its external inputs (wall
clock readings and pending socket signals). -/
inductive Op where
  | add (port : Option Nat) (msg : Nat)
  | avail
  | proc (port : Nat) (now : Nat)
  | check (now : Nat) (signals : List Nat)
  | killAll (signals : List Nat)
deriving DecidableEq, Repr

/-- `Op.isKillAll`: whether the operation is `kill_all`. -/
def Op.isKillAll : Op → Bool
  | Op.killAll _ => true
  | _ => false

/-- Apply one public operation, keeping only the state. -/
def applyOp (s : WorkerManager) : Op → WorkerManager
  | Op.add port msg => s.add_request port msg
  | Op.avail => s.worker_available.1
  | Op.proc port now => (s.process_request port now).state
  | Op.check now signals => (s.check_workers now signals).1
  | Op.killAll signals => (s.kill_all signals).1

/-- The manager state reached from a fresh
`WorkerManager(max_workers, ...)` (created at time `t0`) by a sequence of
public operations. -/
def runOps (mw t0 : Nat) (ops : List Op) : WorkerManager :=
  ops.foldl applyOp (WorkerManager.init mw t0)

/-- A manager whose single tracked worker process has died (liveness is
an external event, so the flag is set directly on the tracked record). -/
def deadWorkerManager : WorkerManager :=
  { WorkerManager.init 2 0 with workers := [false] }

/-- Port bookkeeping consistency: the two Python sets hold no duplicates
and are disjoint. -/
def PortsInv (s : WorkerManager) : Prop :=
  s.available_ports.Nodup ∧ s.claimed_ports.Nodup ∧
  ∀ p ∈ s.available_ports, p ∉ s.claimed_ports

/-- Dict consistency: the step-request table has at most one entry per
port (Python dict keys are unique). -/
def StepKeysInv (s : WorkerManager) : Prop :=
  (s.step_requests.map Prod.fst).Nodup

/-- Worker-count bounds for an active pool created with cap `mw`. -/
def WorkersInv (mw : Nat) (s : WorkerManager) : Prop :=
  s.max_workers = mw ∧ 1 ≤ s.num_workers ∧ s.num_workers ≤ mw

/-- The context-stack state of a `SoS_Worker` process: the per-depth
socket and port lists, the nesting index `_stack_idx`, and the ambient
`env.master_socket`.  Sockets are identified by `Nat` tokens;
`create_socket` + `bind_to_random_port` is modelled by passing the fresh
socket/port pair into `push_env`. -/
structure SoS_Worker where
  master_sockets : List Nat
  master_ports : List Nat
  stack_idx : Nat
  env_master_socket : Nat
deriving DecidableEq, Repr

namespace SoS_Worker

/-- `SoS_Worker.push_env()`: increment the nesting index; reuse the
socket already recorded for that depth when one exists, else create a
fresh socket/port pair and append both. -/
def push_env (w : SoS_Worker) (freshSocket freshPort : Nat) : SoS_Worker :=
  let idx := w.stack_idx + 1
  if idx < w.master_sockets.length then
    { w with stack_idx := idx, env_master_socket := w.master_sockets.getD idx 0 }
  else
    { w with
        stack_idx := idx
        env_master_socket := freshSocket
        master_sockets := w.master_sockets ++ [freshSocket]
        master_ports := w.master_ports ++ [freshPort] }

/-- `SoS_Worker.pop_env()`: decrement the nesting index and reinstate the
socket recorded at that depth. -/
def pop_env (w : SoS_Worker) : SoS_Worker :=
  { w with
      stack_idx := w.stack_idx - 1
      env_master_socket := w.master_sockets.getD (w.stack_idx - 1) 0 }

end SoS_Worker

/-- One context-stack operation of a worker. -/
inductive WOp where
  | push (freshSocket freshPort : Nat)
  | pop
deriving DecidableEq, Repr

/-- Apply one context-stack operation. -/
def applyWOp (w : SoS_Worker) : WOp → SoS_Worker
  | WOp.push fs fp => w.push_env fs fp
  | WOp.pop => w.pop_env

/-- The worker context-stack state after a sequence of push/pop
operations. -/
def runWOps (w : SoS_Worker) (ops : List WOp) : SoS_Worker :=
  ops.foldl applyWOp w

/-! ## Basic lemmas about the set/dict models and the operations -/

theorem setRemove_of_not_mem (l : List Nat) (p : Nat) (h : p ∉ l) :
    setRemove l p = l := by
  unfold setRemove
  apply List.filter_eq_self.mpr
  intro a ha
  simp only [bne_iff_ne, ne_eq]
  exact fun e => h (e ▸ ha)

theorem not_mem_setRemove (l : List Nat) (p : Nat) : p ∉ setRemove l p := by
  unfold setRemove
  intro h
  have := (List.mem_filter.mp h).2
  simp at this

theorem WorkerManager.start_fields (s : WorkerManager) :
    (WorkerManager.start s).substep_requests = s.substep_requests ∧
    (WorkerManager.start s).step_requests = s.step_requests ∧
    (WorkerManager.start s).available_ports = s.available_ports ∧
    (WorkerManager.start s).claimed_ports = s.claimed_ports ∧
    (WorkerManager.start s).n_processed = s.n_processed :=
  ⟨rfl, rfl, rfl, rfl, rfl⟩

theorem WorkerManager.add_request_none_queues (s : WorkerManager) (m : Nat) :
    (WorkerManager.add_request s none m).substep_requests = m :: s.substep_requests ∧
    (WorkerManager.add_request s none m).step_requests = s.step_requests ∧
    (WorkerManager.add_request s none m).available_ports = s.available_ports ∧
    (WorkerManager.add_request s none m).claimed_ports = s.claimed_ports := by
  unfold WorkerManager.add_request
  dsimp only
  split <;> exact ⟨rfl, rfl, rfl, rfl⟩

theorem WorkerManager.process_request_step_case (s : WorkerManager)
    (port now m : Nat)
    (hstep : dictLookup s.step_requests port = some m) :
    WorkerManager.process_request s port now =
      if port ∈ s.claimed_ports then
        { state := { s with
            step_requests := dictRemove s.step_requests port
            last_avail_time := now
            n_processed := s.n_processed + 1
            claimed_ports := setRemove s.claimed_ports port }
          reply := Reply.payload m
          raised := false }
      else
        { state := { s with
            step_requests := dictRemove s.step_requests port
            last_avail_time := now
            n_processed := s.n_processed + 1 }
          reply := Reply.payload m
          raised := true } := by
  unfold WorkerManager.process_request
  rw [hstep]

theorem WorkerManager.process_request_claimed_case (s : WorkerManager)
    (port now : Nat)
    (hstep : dictLookup s.step_requests port = none)
    (hclaim : port ∈ s.claimed_ports) :
    WorkerManager.process_request s port now =
      { state := s, reply := Reply.empty, raised := false } := by
  unfold WorkerManager.process_request
  rw [hstep]
  dsimp only
  rw [if_pos hclaim]

theorem WorkerManager.process_request_substep_case (s : WorkerManager)
    (port now m : Nat) (l : List Nat)
    (hstep : dictLookup s.step_requests port = none)
    (hclaim : port ∉ s.claimed_ports)
    (hsub : s.substep_requests = l ++ [m]) :
    WorkerManager.process_request s port now =
      { state := { s with
          substep_requests := l
          last_avail_time := now
          n_processed := s.n_processed + 1
          available_ports :=
            if port ∈ s.available_ports then setRemove s.available_ports port
            else s.available_ports }
        reply := Reply.payload m
        raised := false } := by
  unfold WorkerManager.process_request
  rw [hstep]
  dsimp only
  rw [if_neg hclaim, hsub]
  simp

theorem WorkerManager.process_request_idle_case (s : WorkerManager)
    (port now : Nat)
    (hstep : dictLookup s.step_requests port = none)
    (hclaim : port ∉ s.claimed_ports)
    (hsub : s.substep_requests = []) :
    WorkerManager.process_request s port now =
      { state := { s with available_ports := setAdd s.available_ports port }
        reply := Reply.empty
        raised := false } := by
  unfold WorkerManager.process_request
  rw [hstep]
  dsimp only
  rw [if_neg hclaim, hsub]
  rfl

/-! ## Claim C1: substep delivery order -/

/-- C1 (counterexample): the claim asserts LIFO delivery (S3, S2, S1).
Submitting substeps 1, 2, 3 (in that order, no port) and processing
three requests on fresh ports 10, 11, 12 delivers 1, 2, 3 — the OLDEST
first, because `add_request` inserts at index 0 while `list.pop()`
removes the last element.  The claimed order (3, 2, 1) is therefore
false at this input. -/
theorem C1_lifo_counterexample :
    (((((WorkerManager.init 2 0).add_request none 1).add_request
        none 2).add_request none 3).process_request 10 0).reply =
      Reply.payload 1 ∧
    ((((((WorkerManager.init 2 0).add_request none 1).add_request
        none 2).add_request none 3).process_request 10 0).state.process_request
        11 0).reply = Reply.payload 2 ∧
    (((((((WorkerManager.init 2 0).add_request none 1).add_request
        none 2).add_request none 3).process_request 10 0).state.process_request
        11 0).state.process_request 12 0).reply = Reply.payload 3 ∧
    ¬ ((((((WorkerManager.init 2 0).add_request none 1).add_request
        none 2).add_request none 3).process_request 10 0).reply =
      Reply.payload 3) := by
  decide

/-- C1 (amended): substep delivery order is strictly FIFO.  For every
manager state with an empty substep queue, submitting substeps `m1`,
`m2`, `m3` in that order via `add_request` with no port, and then calling
`process_request` three times on ports that have no pending step request
and are not claimed, delivers `m1`, then `m2`, then `m3`
(oldest-submitted served first). -/
theorem C1_substep_delivery_fifo (s : WorkerManager)
    (m1 m2 m3 p1 p2 p3 t1 t2 t3 : Nat)
    (hsub : s.substep_requests = [])
    (h1 : dictLookup s.step_requests p1 = none) (hc1 : p1 ∉ s.claimed_ports)
    (h2 : dictLookup s.step_requests p2 = none) (hc2 : p2 ∉ s.claimed_ports)
    (h3 : dictLookup s.step_requests p3 = none) (hc3 : p3 ∉ s.claimed_ports) :
    ((((s.add_request none m1).add_request none m2).add_request
        none m3).process_request p1 t1).reply = Reply.payload m1 ∧
    (((((s.add_request none m1).add_request none m2).add_request
        none m3).process_request p1 t1).state.process_request p2 t2).reply =
      Reply.payload m2 ∧
    ((((((s.add_request none m1).add_request none m2).add_request
        none m3).process_request p1 t1).state.process_request
        p2 t2).state.process_request p3 t3).reply = Reply.payload m3 := by
  have q1 := WorkerManager.add_request_none_queues s m1
  have q2 := WorkerManager.add_request_none_queues (s.add_request none m1) m2
  have q3 := WorkerManager.add_request_none_queues
    ((s.add_request none m1).add_request none m2) m3
  have hA : (((s.add_request none m1).add_request none m2).add_request
      none m3).substep_requests = [m3, m2, m1] := by
    rw [q3.1, q2.1, q1.1, hsub]
  have hB : (((s.add_request none m1).add_request none m2).add_request
      none m3).step_requests = s.step_requests := by
    rw [q3.2.1, q2.2.1, q1.2.1]
  have hC : (((s.add_request none m1).add_request none m2).add_request
      none m3).claimed_ports = s.claimed_ports := by
    rw [q3.2.2.2, q2.2.2.2, q1.2.2.2]
  have e1 := WorkerManager.process_request_substep_case
    (((s.add_request none m1).add_request none m2).add_request none m3)
    p1 t1 m1 [m3, m2] (by rw [hB]; exact h1) (by rw [hC]; exact hc1)
    (by rw [hA]; rfl)
  have hA1 : ((((s.add_request none m1).add_request none m2).add_request
      none m3).process_request p1 t1).state.substep_requests = [m3, m2] := by
    rw [e1]
  have hB1 : ((((s.add_request none m1).add_request none m2).add_request
      none m3).process_request p1 t1).state.step_requests =
      s.step_requests := by
    rw [e1]; exact hB
  have hC1 : ((((s.add_request none m1).add_request none m2).add_request
      none m3).process_request p1 t1).state.claimed_ports =
      s.claimed_ports := by
    rw [e1]; exact hC
  have e2 := WorkerManager.process_request_substep_case
    ((((s.add_request none m1).add_request none m2).add_request
      none m3).process_request p1 t1).state
    p2 t2 m2 [m3] (by rw [hB1]; exact h2) (by rw [hC1]; exact hc2)
    (by rw [hA1]; rfl)
  have hA2 : (((((s.add_request none m1).add_request none m2).add_request
      none m3).process_request p1 t1).state.process_request
      p2 t2).state.substep_requests = [m3] := by
    rw [e2]
  have hB2 : (((((s.add_request none m1).add_request none m2).add_request
      none m3).process_request p1 t1).state.process_request
      p2 t2).state.step_requests = s.step_requests := by
    rw [e2]; exact hB1
  have hC2 : (((((s.add_request none m1).add_request none m2).add_request
      none m3).process_request p1 t1).state.process_request
      p2 t2).state.claimed_ports = s.claimed_ports := by
    rw [e2]; exact hC1
  have e3 := WorkerManager.process_request_substep_case
    (((((s.add_request none m1).add_request none m2).add_request
      none m3).process_request p1 t1).state.process_request p2 t2).state
    p3 t3 m3 [] (by rw [hB2]; exact h3) (by rw [hC2]; exact hc3)
    (by rw [hA2]; rfl)
  refine ⟨by rw [e1], by rw [e2], by rw [e3]⟩

/-- C1 (witness for the amended theorem), at the fresh manager with
substeps 1, 2, 3 and ports 10, 11, 12. -/
theorem C1_substep_delivery_fifo_witness :
    (((((WorkerManager.init 2 0).add_request none 1).add_request
        none 2).add_request none 3).process_request 10 0).reply =
      Reply.payload 1 ∧
    ((((((WorkerManager.init 2 0).add_request none 1).add_request
        none 2).add_request none 3).process_request 10 0).state.process_request
        11 0).reply = Reply.payload 2 ∧
    (((((((WorkerManager.init 2 0).add_request none 1).add_request
        none 2).add_request none 3).process_request 10 0).state.process_request
        11 0).state.process_request 12 0).reply = Reply.payload 3 :=
  C1_substep_delivery_fifo (WorkerManager.init 2 0) 1 2 3 10 11 12 0 0 0
    (by decide) (by decide) (by decide) (by decide) (by decide) (by decide)
    (by decide)

/-! ## Claim C2: `process_request` resolution priority -/

/-- C2: `process_request(port)` resolves in priority order.
(1) A pending step/workflow request for exactly this port is delivered,
the pending entry removed, the port removed from the claimed set, the
processed counter incremented and the last-dispatch timestamp refreshed.
(2) Else a claimed port gets an empty payload and the state is unchanged.
(3) Else if a substep is queued, one is popped and delivered, the counter
incremented, the timestamp refreshed, and the port removed from
`available_ports` if present.  (4) Else the port is added to
`available_ports` and an empty payload is sent, with no other change. -/
theorem C2_process_request_priority (s : WorkerManager) (port now : Nat) :
    (∀ m, dictLookup s.step_requests port = some m →
      (s.process_request port now).reply = Reply.payload m ∧
      (s.process_request port now).state.step_requests =
        dictRemove s.step_requests port ∧
      (s.process_request port now).state.claimed_ports =
        setRemove s.claimed_ports port ∧
      (s.process_request port now).state.n_processed = s.n_processed + 1 ∧
      (s.process_request port now).state.last_avail_time = now) ∧
    (dictLookup s.step_requests port = none → port ∈ s.claimed_ports →
      (s.process_request port now).reply = Reply.empty ∧
      (s.process_request port now).state = s) ∧
    (∀ m l, dictLookup s.step_requests port = none →
      port ∉ s.claimed_ports → s.substep_requests = l ++ [m] →
      (s.process_request port now).reply = Reply.payload m ∧
      (s.process_request port now).state.substep_requests = l ∧
      (s.process_request port now).state.n_processed = s.n_processed + 1 ∧
      (s.process_request port now).state.last_avail_time = now ∧
      (s.process_request port now).state.available_ports =
        setRemove s.available_ports port) ∧
    (dictLookup s.step_requests port = none → port ∉ s.claimed_ports →
      s.substep_requests = [] →
      (s.process_request port now).reply = Reply.empty ∧
      (s.process_request port now).state =
        { s with available_ports := setAdd s.available_ports port }) := by
  refine ⟨?_, ?_, ?_, ?_⟩
  · intro m hstep
    rw [WorkerManager.process_request_step_case s port now m hstep]
    by_cases hc : port ∈ s.claimed_ports
    · rw [if_pos hc]
      exact ⟨rfl, rfl, rfl, rfl, rfl⟩
    · rw [if_neg hc]
      exact ⟨rfl, rfl, (setRemove_of_not_mem _ _ hc).symm, rfl, rfl⟩
  · intro hstep hc
    rw [WorkerManager.process_request_claimed_case s port now hstep hc]
    exact ⟨rfl, rfl⟩
  · intro m l hstep hc hsub
    rw [WorkerManager.process_request_substep_case s port now m l hstep hc hsub]
    refine ⟨rfl, rfl, rfl, rfl, ?_⟩
    by_cases ha : port ∈ s.available_ports
    · dsimp only
      rw [if_pos ha]
    · dsimp only
      rw [if_neg ha, setRemove_of_not_mem _ _ ha]
  · intro hstep hc hsub
    rw [WorkerManager.process_request_idle_case s port now hstep hc hsub]
    exact ⟨rfl, rfl⟩

/-- C2 (witness), exercising branch (4) on a fresh manager. -/
theorem C2_process_request_priority_witness :
    ((WorkerManager.init 2 0).process_request 7 3).reply = Reply.empty ∧
    ((WorkerManager.init 2 0).process_request 7 3).state =
      { (WorkerManager.init 2 0) with
          available_ports :=
            setAdd (WorkerManager.init 2 0).available_ports 7 } :=
  (C2_process_request_priority (WorkerManager.init 2 0) 7 3).2.2.2
    (by decide) (by decide) (by decide)

theorem mem_setAdd_self (l : List Nat) (p : Nat) : p ∈ setAdd l p := by
  unfold setAdd
  split
  · assumption
  · exact List.mem_cons_self p l

/-! ## Claim C5: `worker_available` -/

/-- C5: `worker_available()` pops and returns an available port when one
exists, moving it to the claimed set and spawning nothing; with no
available port it returns `none` and spawns exactly one new worker if
and only if the worker count is below `max_workers`. -/
theorem C5_worker_available (s : WorkerManager) :
    (∀ p rest, s.available_ports = p :: rest →
      s.worker_available.2 = some p ∧
      s.worker_available.1.available_ports = rest ∧
      p ∈ s.worker_available.1.claimed_ports ∧
      s.worker_available.1.num_workers = s.num_workers) ∧
    (s.available_ports = [] →
      s.worker_available.2 = none ∧
      (s.num_workers < s.max_workers →
        s.worker_available.1.num_workers = s.num_workers + 1) ∧
      (¬ s.num_workers < s.max_workers → s.worker_available.1 = s)) := by
  constructor
  · intro p rest h
    unfold WorkerManager.worker_available
    rw [h]
    exact ⟨rfl, rfl, mem_setAdd_self _ _, rfl⟩
  · intro h
    unfold WorkerManager.worker_available
    rw [h]
    refine ⟨rfl, ?_, ?_⟩
    · intro hlt
      dsimp only
      rw [if_pos hlt]
      rfl
    · intro hge
      dsimp only
      rw [if_neg hge]

/-- C5 (witness): after `process_request 4` on a fresh manager, port 4 is
available; `worker_available` then returns it and claims it. -/
theorem C5_worker_available_witness :
    (runOps 2 0 [Op.proc 4 0]).worker_available.2 = some 4 ∧
    (runOps 2 0 [Op.proc 4 0]).worker_available.1.available_ports = [] ∧
    4 ∈ (runOps 2 0 [Op.proc 4 0]).worker_available.1.claimed_ports ∧
    (runOps 2 0 [Op.proc 4 0]).worker_available.1.num_workers =
      (runOps 2 0 [Op.proc 4 0]).num_workers :=
  (C5_worker_available (runOps 2 0 [Op.proc 4 0])).1 4 [] (by decide)

/-! ## Claim C7: `process_request` on an idle, unpending port -/

/-- C7 (counterexample): the claim omits the substep queue.  With one
substep queued, `process_request` on port 7 — which has no pending step
request and is not claimed — delivers the substep instead of replying
with an empty payload, and does not add 7 to the available set. -/
theorem C7_counterexample :
    dictLookup ((WorkerManager.init 2 0).add_request none 42).step_requests
        7 = none ∧
    7 ∉ ((WorkerManager.init 2 0).add_request none 42).claimed_ports ∧
    ¬ ((((WorkerManager.init 2 0).add_request none 42).process_request
        7 0).reply = Reply.empty) ∧
    7 ∉ (((WorkerManager.init 2 0).add_request none 42).process_request
        7 0).state.available_ports := by
  decide

/-- C7 (amended): for every port with no pending step/workflow request
that is not claimed, and with the substep queue empty,
`process_request` adds the port to the available set, replies with an
empty payload, and changes nothing else. -/
theorem C7_idle_port_available (s : WorkerManager) (p now : Nat)
    (h1 : dictLookup s.step_requests p = none)
    (h2 : p ∉ s.claimed_ports)
    (h3 : s.substep_requests = []) :
    (s.process_request p now).reply = Reply.empty ∧
    p ∈ (s.process_request p now).state.available_ports ∧
    (s.process_request p now).state =
      { s with available_ports := setAdd s.available_ports p } := by
  rw [WorkerManager.process_request_idle_case s p now h1 h2 h3]
  exact ⟨rfl, mem_setAdd_self _ _, rfl⟩

/-- C7 (witness), at a fresh manager and port 9. -/
theorem C7_idle_port_available_witness :
    ((WorkerManager.init 2 0).process_request 9 1).reply = Reply.empty ∧
    9 ∈ ((WorkerManager.init 2 0).process_request 9 1).state.available_ports ∧
    ((WorkerManager.init 2 0).process_request 9 1).state =
      { (WorkerManager.init 2 0) with
          available_ports :=
            setAdd (WorkerManager.init 2 0).available_ports 9 } :=
  C7_idle_port_available (WorkerManager.init 2 0) 9 1 (by decide) (by decide)
    (by decide)

/-! ## Claim C9: step dispatch requires the port to be claimed -/

/-- C9: when a step/workflow request is pending for `port`,
`process_request` always sends it, pops the pending entry and bumps the
processed counter; it then unconditionally removes `port` from the
claimed set, which succeeds (no raise) exactly when `port` is a member of
`claimed_ports`.  For an unclaimed port the call raises (`KeyError` from
`set.remove`) after those mutations, leaving the claimed set
unchanged. -/
theorem C9_step_dispatch_requires_claim (s : WorkerManager)
    (port now m : Nat)
    (hstep : dictLookup s.step_requests port = some m) :
    (s.process_request port now).reply = Reply.payload m ∧
    (s.process_request port now).state.step_requests =
      dictRemove s.step_requests port ∧
    (s.process_request port now).state.n_processed = s.n_processed + 1 ∧
    ((s.process_request port now).raised = false ↔ port ∈ s.claimed_ports) ∧
    (port ∈ s.claimed_ports →
      (s.process_request port now).state.claimed_ports =
        setRemove s.claimed_ports port) ∧
    (port ∉ s.claimed_ports →
      (s.process_request port now).state.claimed_ports = s.claimed_ports) := by
  rw [WorkerManager.process_request_step_case s port now m hstep]
  by_cases hc : port ∈ s.claimed_ports
  · rw [if_pos hc]
    exact ⟨rfl, rfl, rfl, by simp [hc], fun _ => rfl, fun h => absurd hc h⟩
  · rw [if_neg hc]
    exact ⟨rfl, rfl, rfl, by simp [hc], fun h => absurd h hc, fun _ => rfl⟩

/-- C9 (witness): port 5 is made available, claimed through
`worker_available`, given a pending step request, then served — no raise
since 5 is claimed. -/
theorem C9_step_dispatch_requires_claim_witness :
    ((runOps 1 0 [Op.proc 5 0, Op.avail,
        Op.add (some 5) 99]).process_request 5 2).reply = Reply.payload 99 ∧
    ((runOps 1 0 [Op.proc 5 0, Op.avail,
        Op.add (some 5) 99]).process_request 5 2).state.step_requests =
      dictRemove (runOps 1 0 [Op.proc 5 0, Op.avail,
        Op.add (some 5) 99]).step_requests 5 ∧
    ((runOps 1 0 [Op.proc 5 0, Op.avail,
        Op.add (some 5) 99]).process_request 5 2).state.n_processed =
      (runOps 1 0 [Op.proc 5 0, Op.avail, Op.add (some 5) 99]).n_processed
        + 1 ∧
    (((runOps 1 0 [Op.proc 5 0, Op.avail,
        Op.add (some 5) 99]).process_request 5 2).raised = false ↔
      5 ∈ (runOps 1 0 [Op.proc 5 0, Op.avail,
        Op.add (some 5) 99]).claimed_ports) ∧
    (5 ∈ (runOps 1 0 [Op.proc 5 0, Op.avail,
        Op.add (some 5) 99]).claimed_ports →
      ((runOps 1 0 [Op.proc 5 0, Op.avail,
          Op.add (some 5) 99]).process_request 5 2).state.claimed_ports =
        setRemove (runOps 1 0 [Op.proc 5 0, Op.avail,
          Op.add (some 5) 99]).claimed_ports 5) ∧
    (5 ∉ (runOps 1 0 [Op.proc 5 0, Op.avail,
        Op.add (some 5) 99]).claimed_ports →
      ((runOps 1 0 [Op.proc 5 0, Op.avail,
          Op.add (some 5) 99]).process_request 5 2).state.claimed_ports =
        (runOps 1 0 [Op.proc 5 0, Op.avail,
          Op.add (some 5) 99]).claimed_ports) :=
  C9_step_dispatch_requires_claim
    (runOps 1 0 [Op.proc 5 0, Op.avail, Op.add (some 5) 99]) 5 2 99
    (by decide)

theorem applyWOp_grows (w : SoS_Worker) (op : WOp) :
    w.master_sockets.length ≤ (applyWOp w op).master_sockets.length ∧
    w.master_ports.length ≤ (applyWOp w op).master_ports.length ∧
    (∀ i, i < w.master_sockets.length →
      (applyWOp w op).master_sockets.getD i 0 = w.master_sockets.getD i 0) ∧
    (∀ i, i < w.master_ports.length →
      (applyWOp w op).master_ports.getD i 0 = w.master_ports.getD i 0) := by
  cases op with
  | pop => exact ⟨le_refl _, le_refl _, fun i _ => rfl, fun i _ => rfl⟩
  | push fs fp =>
    dsimp only [applyWOp]
    unfold SoS_Worker.push_env
    dsimp only
    split
    · exact ⟨le_refl _, le_refl _, fun i _ => rfl, fun i _ => rfl⟩
    · refine ⟨?_, ?_, ?_, ?_⟩
      · rw [List.length_append]
        exact Nat.le_add_right _ _
      · rw [List.length_append]
        exact Nat.le_add_right _ _
      · intro i hi
        exact List.getD_append _ _ _ _ hi
      · intro i hi
        exact List.getD_append _ _ _ _ hi

theorem runWOps_grows (w : SoS_Worker) (ops : List WOp) :
    w.master_sockets.length ≤ (runWOps w ops).master_sockets.length ∧
    w.master_ports.length ≤ (runWOps w ops).master_ports.length ∧
    (∀ i, i < w.master_sockets.length →
      (runWOps w ops).master_sockets.getD i 0 = w.master_sockets.getD i 0) ∧
    (∀ i, i < w.master_ports.length →
      (runWOps w ops).master_ports.getD i 0 = w.master_ports.getD i 0) := by
  induction ops generalizing w with
  | nil => exact ⟨le_refl _, le_refl _, fun i _ => rfl, fun i _ => rfl⟩
  | cons op rest ih =>
    have h1 := applyWOp_grows w op
    have h2 := ih (applyWOp w op)
    have hrw : runWOps w (op :: rest) = runWOps (applyWOp w op) rest := rfl
    refine ⟨?_, ?_, ?_, ?_⟩
    · rw [hrw]; exact le_trans h1.1 h2.1
    · rw [hrw]; exact le_trans h1.2.1 h2.2.1
    · intro i hi
      rw [hrw, h2.2.2.1 i (lt_of_lt_of_le hi h1.1), h1.2.2.1 i hi]
    · intro i hi
      rw [hrw, h2.2.2.2 i (lt_of_lt_of_le hi h1.2.1), h1.2.2.2 i hi]

/-! ## Claim C8: `check_workers` liveness raise -/

/-- C8 (counterexample): the raise is gated by the 5-unit liveness
window.  `deadWorkerManager` tracks one worker that is no longer alive,
yet `check_workers` at time 3 (only 3 units after the last check) does
not raise — refuting "raises if and only if some tracked worker process
is no longer alive". -/
theorem C8_counterexample :
    false ∈ deadWorkerManager.workers ∧
    (deadWorkerManager.check_workers 3 []).2.1 = false := by
  decide

/-- C8 (amended): `check_workers` raises `ProcessKilled` if and only if
more than 5 time units have passed since the last liveness check AND the
number of tracked workers still alive is below the recorded worker
count; the condition is returned to the caller (the raised flag), never
swallowed. -/
theorem C8_check_workers_raise_iff (s : WorkerManager) (now : Nat)
    (signals : List Nat) :
    (s.check_workers now signals).2.1 = true ↔
      (5 < now - s.worker_alive_time ∧
        (s.workers.filter (fun a => a)).length < s.num_workers) := by
  unfold WorkerManager.check_workers
  by_cases h1 : 5 < now - s.worker_alive_time
  · rw [if_pos h1]
    dsimp only
    by_cases h2 : (s.workers.filter (fun a => a)).length < s.num_workers
    · rw [if_pos h2]
      simp [h1, h2]
    · rw [if_neg h2]
      by_cases h3 : now - s.last_avail_time < 5
      · rw [if_pos h3]
        simp [h2]
      · rw [if_neg h3]
        simp [h2]
  · rw [if_neg h1]
    by_cases h3 : now - s.last_avail_time < 5
    · rw [if_pos h3]
      simp [h1]
    · rw [if_neg h3]
      simp [h1]

/-! ## Claim C10: worker context stack -/

/-- C10: `pop_env` immediately after `push_env` restores the nesting
index, the active master socket and the active (per-depth) port; the
per-depth socket and port lists never shrink under any sequence of
push/pop operations, every entry below the original length being
retained; and a push to a depth whose socket already exists reuses it
without touching the lists. -/
theorem C10_push_pop_roundtrip (w : SoS_Worker) (fs fp : Nat)
    (ops : List WOp) (i : Nat)
    (hidx : w.stack_idx < w.master_sockets.length)
    (hlen : w.master_ports.length = w.master_sockets.length)
    (hsock : w.env_master_socket = w.master_sockets.getD w.stack_idx 0) :
    ((w.push_env fs fp).pop_env).stack_idx = w.stack_idx ∧
    ((w.push_env fs fp).pop_env).env_master_socket = w.env_master_socket ∧
    ((w.push_env fs fp).pop_env).master_ports.getD w.stack_idx 0 =
      w.master_ports.getD w.stack_idx 0 ∧
    w.master_sockets.length ≤ (runWOps w ops).master_sockets.length ∧
    w.master_ports.length ≤ (runWOps w ops).master_ports.length ∧
    (i < w.master_sockets.length →
      (runWOps w ops).master_sockets.getD i 0 = w.master_sockets.getD i 0) ∧
    (i < w.master_ports.length →
      (runWOps w ops).master_ports.getD i 0 = w.master_ports.getD i 0) ∧
    (w.stack_idx + 1 < w.master_sockets.length →
      (w.push_env fs fp).env_master_socket =
        w.master_sockets.getD (w.stack_idx + 1) 0 ∧
      (w.push_env fs fp).master_sockets = w.master_sockets ∧
      (w.push_env fs fp).master_ports = w.master_ports) := by
  have grows := runWOps_grows w ops
  refine ⟨?_, ?_, ?_, grows.1, grows.2.1,
    fun hi => grows.2.2.1 i hi, fun hi => grows.2.2.2 i hi, ?_⟩
  · unfold SoS_Worker.push_env SoS_Worker.pop_env
    dsimp only
    split <;> rfl
  · unfold SoS_Worker.push_env SoS_Worker.pop_env
    dsimp only
    split
    · dsimp only
      rw [Nat.add_sub_cancel]
      exact hsock.symm
    · dsimp only
      rw [Nat.add_sub_cancel]
      rw [List.getD_append _ _ _ _ hidx]
      exact hsock.symm
  · unfold SoS_Worker.push_env SoS_Worker.pop_env
    dsimp only
    split
    · rfl
    · dsimp only
      exact List.getD_append _ _ _ _ (by rw [hlen]; exact hidx)
  · intro hreuse
    unfold SoS_Worker.push_env
    dsimp only
    rw [if_pos hreuse]
    exact ⟨rfl, rfl, rfl⟩

/-- C10 (witness): a worker at depth 0 holding sockets for depths 0 and
1. -/
theorem C10_push_pop_roundtrip_witness :
    (((SoS_Worker.mk [100, 101] [50, 51] 0 100).push_env
        7 8).pop_env).stack_idx = (SoS_Worker.mk [100, 101] [50, 51] 0 100).stack_idx ∧
    (((SoS_Worker.mk [100, 101] [50, 51] 0 100).push_env
        7 8).pop_env).env_master_socket =
      (SoS_Worker.mk [100, 101] [50, 51] 0 100).env_master_socket ∧
    (((SoS_Worker.mk [100, 101] [50, 51] 0 100).push_env
        7 8).pop_env).master_ports.getD 0 0 =
      (SoS_Worker.mk [100, 101] [50, 51] 0 100).master_ports.getD 0 0 ∧
    (SoS_Worker.mk [100, 101] [50, 51] 0 100).master_sockets.length ≤
      (runWOps (SoS_Worker.mk [100, 101] [50, 51] 0 100)
        [WOp.push 7 8, WOp.pop]).master_sockets.length ∧
    (SoS_Worker.mk [100, 101] [50, 51] 0 100).master_ports.length ≤
      (runWOps (SoS_Worker.mk [100, 101] [50, 51] 0 100)
        [WOp.push 7 8, WOp.pop]).master_ports.length ∧
    (1 < (SoS_Worker.mk [100, 101] [50, 51] 0 100).master_sockets.length →
      (runWOps (SoS_Worker.mk [100, 101] [50, 51] 0 100)
        [WOp.push 7 8, WOp.pop]).master_sockets.getD 1 0 =
        (SoS_Worker.mk [100, 101] [50, 51] 0 100).master_sockets.getD 1 0) ∧
    (1 < (SoS_Worker.mk [100, 101] [50, 51] 0 100).master_ports.length →
      (runWOps (SoS_Worker.mk [100, 101] [50, 51] 0 100)
        [WOp.push 7 8, WOp.pop]).master_ports.getD 1 0 =
        (SoS_Worker.mk [100, 101] [50, 51] 0 100).master_ports.getD 1 0) ∧
    ((SoS_Worker.mk [100, 101] [50, 51] 0 100).stack_idx + 1 <
        (SoS_Worker.mk [100, 101] [50, 51] 0 100).master_sockets.length →
      ((SoS_Worker.mk [100, 101] [50, 51] 0 100).push_env
          7 8).env_master_socket =
        (SoS_Worker.mk [100, 101] [50, 51] 0 100).master_sockets.getD 1 0 ∧
      ((SoS_Worker.mk [100, 101] [50, 51] 0 100).push_env
          7 8).master_sockets =
        (SoS_Worker.mk [100, 101] [50, 51] 0 100).master_sockets ∧
      ((SoS_Worker.mk [100, 101] [50, 51] 0 100).push_env
          7 8).master_ports =
        (SoS_Worker.mk [100, 101] [50, 51] 0 100).master_ports) :=
  C10_push_pop_roundtrip (SoS_Worker.mk [100, 101] [50, 51] 0 100) 7 8
    [WOp.push 7 8, WOp.pop] 1 (by decide) (by decide) (by decide)

/-! ## Set and dict algebra for the invariant proofs -/

theorem mem_setAdd (l : List Nat) (p q : Nat) :
    q ∈ setAdd l p ↔ q = p ∨ q ∈ l := by
  unfold setAdd
  split
  · next h =>
    constructor
    · exact fun hq => Or.inr hq
    · rintro (rfl | hq)
      · exact h
      · exact hq
  · exact List.mem_cons

theorem setAdd_nodup (l : List Nat) (p : Nat) (h : l.Nodup) :
    (setAdd l p).Nodup := by
  unfold setAdd
  split
  · exact h
  · next hn => exact List.nodup_cons.mpr ⟨hn, h⟩

theorem setRemove_nodup (l : List Nat) (p : Nat) (h : l.Nodup) :
    (setRemove l p).Nodup :=
  h.filter _

theorem mem_setRemove (l : List Nat) (p q : Nat) :
    q ∈ setRemove l p ↔ q ∈ l ∧ q ≠ p := by
  unfold setRemove
  rw [List.mem_filter]
  simp

theorem keys_map_replace (d : List (Nat × Nat)) (p m : Nat) :
    (d.map (fun q => if q.1 = p then (p, m) else q)).map Prod.fst =
      d.map Prod.fst := by
  induction d with
  | nil => rfl
  | cons q d ih =>
    rw [List.map_cons, List.map_cons, List.map_cons, ih]
    by_cases hq : q.1 = p
    · rw [if_pos hq, hq]
    · rw [if_neg hq]

theorem dictInsert_keys_nodup (d : List (Nat × Nat)) (p m : Nat)
    (h : (d.map Prod.fst).Nodup) :
    ((dictInsert d p m).map Prod.fst).Nodup := by
  unfold dictInsert
  split
  · rw [keys_map_replace]
    exact h
  · next ha =>
    rw [List.map_append]
    refine List.Nodup.append h (List.nodup_singleton p) ?_
    intro x hx hx2
    rw [List.map_singleton, List.mem_singleton] at hx2
    subst hx2
    apply ha
    rw [List.any_eq_true]
    rcases List.mem_map.mp hx with ⟨q, hq, hq2⟩
    exact ⟨q, hq, by rw [beq_iff_eq]; exact hq2⟩

theorem dictRemove_keys_nodup (d : List (Nat × Nat)) (p : Nat)
    (h : (d.map Prod.fst).Nodup) :
    ((dictRemove d p).map Prod.fst).Nodup :=
  List.Nodup.sublist ((List.filter_sublist d).map Prod.fst) h

theorem dictLookup_map_replace (d : List (Nat × Nat)) (p m : Nat)
    (h : d.any (fun q => q.1 == p) = true) :
    dictLookup (d.map (fun q => if q.1 = p then (p, m) else q)) p = some m := by
  induction d with
  | nil => simp at h
  | cons q d ih =>
    rw [List.map_cons]
    by_cases hq : q.1 = p
    · rw [if_pos hq]
      unfold dictLookup
      rw [if_pos rfl]
    · rw [if_neg hq]
      unfold dictLookup
      rw [if_neg hq]
      apply ih
      rw [List.any_cons] at h
      rcases Bool.or_eq_true_iff.mp h with h1 | h2
      · exact absurd (beq_iff_eq.mp h1) hq
      · exact h2

theorem dictLookup_append_single (d : List (Nat × Nat)) (p m : Nat)
    (h : ¬ d.any (fun q => q.1 == p) = true) :
    dictLookup (d ++ [(p, m)]) p = some m := by
  induction d with
  | nil =>
    rw [List.nil_append]
    unfold dictLookup
    rw [if_pos rfl]
  | cons q d ih =>
    rw [List.cons_append]
    unfold dictLookup
    rw [List.any_cons] at h
    have hq : ¬ q.1 = p := by
      intro e
      exact h (Bool.or_eq_true_iff.mpr (Or.inl (beq_iff_eq.mpr e)))
    rw [if_neg hq]
    exact ih (fun h2 => h (Bool.or_eq_true_iff.mpr (Or.inr h2)))

theorem dictLookup_dictInsert_self (d : List (Nat × Nat)) (p m : Nat) :
    dictLookup (dictInsert d p m) p = some m := by
  unfold dictInsert
  split
  · next h => exact dictLookup_map_replace d p m h
  · next h => exact dictLookup_append_single d p m h

theorem countP_key_eq_count (d : List (Nat × Nat)) (p : Nat) :
    d.countP (fun q => q.1 == p) = (d.map Prod.fst).count p := by
  induction d with
  | nil => rfl
  | cons q d ih =>
    rw [List.map_cons, List.countP_cons, List.count_cons, ih]

theorem countP_key_le_one (d : List (Nat × Nat)) (p : Nat)
    (h : (d.map Prod.fst).Nodup) :
    d.countP (fun q => q.1 == p) ≤ 1 := by
  rw [countP_key_eq_count]
  exact List.nodup_iff_count_le_one.mp h p

theorem countP_dictInsert (d : List (Nat × Nat)) (p m : Nat)
    (h : (d.map Prod.fst).Nodup) :
    (dictInsert d p m).countP (fun q => q.1 == p) = 1 := by
  unfold dictInsert
  split
  · next ha =>
    have hpt : ∀ q ∈ d,
        ((((fun r => r.1 == p) ∘ fun r => if r.1 = p then (p, m) else r) q)
            = true ↔
          ((fun r => r.1 == p) q) = true) := by
      intro q _
      by_cases hq : q.1 = p
      · simp [hq]
      · simp [hq]
    rw [List.countP_map, List.countP_congr hpt, countP_key_eq_count]
    have hmem : p ∈ d.map Prod.fst := by
      rcases List.any_eq_true.mp ha with ⟨q, hq, hq2⟩
      exact List.mem_map.mpr ⟨q, hq, beq_iff_eq.mp hq2⟩
    have h1 := List.nodup_iff_count_le_one.mp h p
    have h2 := List.count_pos_iff.mpr hmem
    omega
  · next ha =>
    rw [List.countP_append]
    have h0 : d.countP (fun q => q.1 == p) = 0 := by
      rw [List.countP_eq_zero]
      intro q hq
      exact fun hq2 => ha (List.any_eq_true.mpr ⟨q, hq, hq2⟩)
    rw [h0]
    simp

theorem eq_dropLast_append_getLast (l : List Nat) (h : l ≠ []) :
    l = l.dropLast ++ [l.getLast h] :=
  (List.dropLast_append_getLast h).symm

/-- Exhaustive enumeration of the four resolution branches of
`process_request` (branch 1 split over whether the port is claimed). -/
theorem WorkerManager.process_request_cases (s : WorkerManager)
    (port now : Nat) :
    (∃ m, dictLookup s.step_requests port = some m ∧
      port ∈ s.claimed_ports ∧
      s.process_request port now =
        { state := { s with
            step_requests := dictRemove s.step_requests port
            last_avail_time := now
            n_processed := s.n_processed + 1
            claimed_ports := setRemove s.claimed_ports port }
          reply := Reply.payload m
          raised := false }) ∨
    (∃ m, dictLookup s.step_requests port = some m ∧
      port ∉ s.claimed_ports ∧
      s.process_request port now =
        { state := { s with
            step_requests := dictRemove s.step_requests port
            last_avail_time := now
            n_processed := s.n_processed + 1 }
          reply := Reply.payload m
          raised := true }) ∨
    (dictLookup s.step_requests port = none ∧ port ∈ s.claimed_ports ∧
      s.process_request port now =
        { state := s, reply := Reply.empty, raised := false }) ∨
    (∃ m, dictLookup s.step_requests port = none ∧
      port ∉ s.claimed_ports ∧
      s.substep_requests.getLast? = some m ∧
      s.process_request port now =
        { state := { s with
            substep_requests := s.substep_requests.dropLast
            last_avail_time := now
            n_processed := s.n_processed + 1
            available_ports :=
              if port ∈ s.available_ports then
                setRemove s.available_ports port
              else s.available_ports }
          reply := Reply.payload m
          raised := false }) ∨
    (dictLookup s.step_requests port = none ∧ port ∉ s.claimed_ports ∧
      s.substep_requests = [] ∧
      s.process_request port now =
        { state := { s with available_ports := setAdd s.available_ports port }
          reply := Reply.empty
          raised := false }) := by
  cases hl : dictLookup s.step_requests port with
  | some m =>
    by_cases hc : port ∈ s.claimed_ports
    · exact Or.inl ⟨m, rfl, hc, by
        rw [WorkerManager.process_request_step_case s port now m hl, if_pos hc]⟩
    · exact Or.inr (Or.inl ⟨m, rfl, hc, by
        rw [WorkerManager.process_request_step_case s port now m hl, if_neg hc]⟩)
  | none =>
    by_cases hc : port ∈ s.claimed_ports
    · exact Or.inr (Or.inr (Or.inl ⟨rfl, hc,
        WorkerManager.process_request_claimed_case s port now hl hc⟩))
    · cases hs : s.substep_requests with
      | nil =>
        refine Or.inr (Or.inr (Or.inr (Or.inr ⟨rfl, hc, rfl, ?_⟩)))
        rw [WorkerManager.process_request_idle_case s port now hl hc hs, hs]
      | cons a as =>
        have hne : (a :: as : List Nat) ≠ [] := by simp
        refine Or.inr (Or.inr (Or.inr (Or.inl ⟨(a :: as).getLast hne, rfl, hc,
          List.getLast?_eq_getLast_of_ne_nil hne, ?_⟩)))
        rw [WorkerManager.process_request_substep_case s port now
          ((a :: as).getLast hne) ((a :: as).dropLast) hl hc
          (by rw [hs]; exact eq_dropLast_append_getLast _ hne)]

/-! ## Per-operation effect lemmas -/

theorem add_request_effects (s : WorkerManager) (port : Option Nat) (m : Nat) :
    (s.add_request port m).available_ports = s.available_ports ∧
    (s.add_request port m).claimed_ports = s.claimed_ports ∧
    (s.add_request port m).max_workers = s.max_workers ∧
    ((s.add_request port m).num_workers = s.num_workers ∨
      ((s.add_request port m).num_workers = s.num_workers + 1 ∧
        s.num_workers < s.max_workers)) ∧
    (s.add_request port m).step_requests =
      (match port with
       | none => s.step_requests
       | some p => dictInsert s.step_requests p m) := by
  unfold WorkerManager.add_request
  cases port with
  | none =>
    dsimp only
    split
    · next hcond => exact ⟨rfl, rfl, rfl, Or.inr ⟨rfl, hcond.2.2⟩, rfl⟩
    · exact ⟨rfl, rfl, rfl, Or.inl rfl, rfl⟩
  | some p =>
    dsimp only
    split
    · next hcond => exact ⟨rfl, rfl, rfl, Or.inr ⟨rfl, hcond.2.2⟩, rfl⟩
    · exact ⟨rfl, rfl, rfl, Or.inl rfl, rfl⟩

theorem worker_available_effects (s : WorkerManager) :
    s.worker_available.1.step_requests = s.step_requests ∧
    s.worker_available.1.max_workers = s.max_workers ∧
    (s.worker_available.1.num_workers = s.num_workers ∨
      (s.worker_available.1.num_workers = s.num_workers + 1 ∧
        s.num_workers < s.max_workers)) ∧
    (PortsInv s → PortsInv s.worker_available.1) := by
  unfold WorkerManager.worker_available
  cases hl : s.available_ports with
  | nil =>
    dsimp only
    split
    · next h => exact ⟨rfl, rfl, Or.inr ⟨rfl, h⟩, fun hp => hp⟩
    · exact ⟨rfl, rfl, Or.inl rfl, fun hp => hp⟩
  | cons p rest =>
    dsimp only
    refine ⟨rfl, rfl, Or.inl rfl, ?_⟩
    intro hp
    have hnd : (p :: rest).Nodup := hl ▸ hp.1
    refine ⟨(List.nodup_cons.mp hnd).2, setAdd_nodup _ _ hp.2.1, ?_⟩
    intro q hq hq2
    rcases (mem_setAdd _ _ _).mp hq2 with rfl | hq3
    · exact (List.nodup_cons.mp hnd).1 hq
    · exact hp.2.2 q (by rw [hl]; exact List.mem_cons_of_mem _ hq) hq3

theorem process_request_preserves (s : WorkerManager) (port now : Nat) :
    (s.process_request port now).state.max_workers = s.max_workers ∧
    (s.process_request port now).state.num_workers = s.num_workers ∧
    (PortsInv s → PortsInv (s.process_request port now).state) ∧
    (StepKeysInv s → StepKeysInv (s.process_request port now).state) := by
  rcases WorkerManager.process_request_cases s port now with
    ⟨m, _, hc, heq⟩ | ⟨m, _, hc, heq⟩ | ⟨_, hc, heq⟩ | ⟨m, _, hc, hg, heq⟩ |
    ⟨_, hc, hsub, heq⟩ <;> rw [heq]
  · refine ⟨rfl, rfl, fun hp => ⟨hp.1, setRemove_nodup _ _ hp.2.1, ?_⟩,
      fun hk => dictRemove_keys_nodup _ _ hk⟩
    intro q hq hq2
    exact hp.2.2 q hq ((mem_setRemove _ _ _).mp hq2).1
  · exact ⟨rfl, rfl, fun hp => hp, fun hk => dictRemove_keys_nodup _ _ hk⟩
  · exact ⟨rfl, rfl, fun hp => hp, fun hk => hk⟩
  · refine ⟨rfl, rfl, fun hp => ⟨?_, hp.2.1, ?_⟩, fun hk => hk⟩
    · dsimp only
      split
      · exact setRemove_nodup _ _ hp.1
      · exact hp.1
    · intro q hq hq2
      refine hp.2.2 q ?_ hq2
      revert hq
      dsimp only
      split
      · exact fun hq => ((mem_setRemove _ _ _).mp hq).1
      · exact fun hq => hq
  · refine ⟨rfl, rfl, fun hp => ⟨setAdd_nodup _ _ hp.1, hp.2.1, ?_⟩,
      fun hk => hk⟩
    intro q hq hq2
    rcases (mem_setAdd _ _ _).mp hq with rfl | hq3
    · exact hc hq2
    · exact hp.2.2 q hq3 hq2

theorem reclaimLoop_preserves (signals : List Nat) (s : WorkerManager) :
    (WorkerManager.reclaimLoop s signals).1.max_workers = s.max_workers ∧
    (WorkerManager.reclaimLoop s signals).1.num_workers ≤ s.num_workers ∧
    (1 ≤ s.num_workers →
      1 ≤ (WorkerManager.reclaimLoop s signals).1.num_workers) ∧
    (WorkerManager.reclaimLoop s signals).1.step_requests =
      s.step_requests ∧
    (PortsInv s → PortsInv (WorkerManager.reclaimLoop s signals).1) := by
  induction signals generalizing s with
  | nil => exact ⟨rfl, le_refl _, fun h => h, rfl, fun hp => hp⟩
  | cons port rest ih =>
    unfold WorkerManager.reclaimLoop
    split
    · next hgt =>
      split
      · dsimp only
        exact ih s
      · dsimp only
        have step := ih { s with
          available_ports :=
            if port ∈ s.available_ports then setRemove s.available_ports port
            else s.available_ports
          num_workers := s.num_workers - 1 }
        refine ⟨step.1, ?_, ?_, step.2.2.2.1, ?_⟩
        · have := step.2.1
          dsimp at this
          omega
        · intro _
          have := step.2.2.1
          dsimp at this
          omega
        · intro hp
          refine step.2.2.2.2 ⟨?_, hp.2.1, ?_⟩
          · dsimp only
            split
            · exact setRemove_nodup _ _ hp.1
            · exact hp.1
          · intro q hq hq2
            refine hp.2.2 q ?_ hq2
            revert hq
            dsimp only
            split
            · exact fun hq => ((mem_setRemove _ _ _).mp hq).1
            · exact fun hq => hq
    · exact ⟨rfl, le_refl _, fun h => h, rfl, fun hp => hp⟩

theorem check_workers_preserves (s : WorkerManager) (now : Nat)
    (signals : List Nat) :
    (s.check_workers now signals).1.max_workers = s.max_workers ∧
    (s.check_workers now signals).1.num_workers ≤ s.num_workers ∧
    (1 ≤ s.num_workers →
      1 ≤ (s.check_workers now signals).1.num_workers) ∧
    (s.check_workers now signals).1.step_requests = s.step_requests ∧
    (PortsInv s → PortsInv (s.check_workers now signals).1) := by
  unfold WorkerManager.check_workers
  by_cases h1 : 5 < now - s.worker_alive_time
  · rw [if_pos h1]
    dsimp only
    by_cases h2 : (s.workers.filter (fun a => a)).length < s.num_workers
    · rw [if_pos h2]
      exact ⟨rfl, le_refl _, fun h => h, rfl, fun hp => hp⟩
    · rw [if_neg h2]
      by_cases h3 : now - s.last_avail_time < 5
      · rw [if_pos h3]
        exact ⟨rfl, le_refl _, fun h => h, rfl, fun hp => hp⟩
      · rw [if_neg h3]
        dsimp only
        exact reclaimLoop_preserves signals _
  · rw [if_neg h1]
    by_cases h3 : now - s.last_avail_time < 5
    · rw [if_pos h3]
      exact ⟨rfl, le_refl _, fun h => h, rfl, fun hp => hp⟩
    · rw [if_neg h3]
      dsimp only
      exact reclaimLoop_preserves signals s

theorem kill_all_fields (signals : List Nat) (s : WorkerManager) :
    (WorkerManager.kill_all s signals).1.available_ports =
      s.available_ports ∧
    (WorkerManager.kill_all s signals).1.claimed_ports = s.claimed_ports ∧
    (WorkerManager.kill_all s signals).1.step_requests = s.step_requests ∧
    (WorkerManager.kill_all s signals).1.max_workers = s.max_workers := by
  induction signals generalizing s with
  | nil => exact ⟨rfl, rfl, rfl, rfl⟩
  | cons a rest ih =>
    unfold WorkerManager.kill_all
    split
    · dsimp only
      exact ih _
    · exact ⟨rfl, rfl, rfl, rfl⟩

theorem add_request_some_steps (s : WorkerManager) (p m : Nat) :
    (s.add_request (some p) m).step_requests =
      dictInsert s.step_requests p m :=
  (add_request_effects s (some p) m).2.2.2.2

theorem applyOp_preserves (mw : Nat) (s : WorkerManager) (op : Op) :
    (PortsInv s → PortsInv (applyOp s op)) ∧
    (StepKeysInv s → StepKeysInv (applyOp s op)) ∧
    (op.isKillAll = false → WorkersInv mw s → WorkersInv mw (applyOp s op)) := by
  cases op with
  | add port msg =>
    dsimp only [applyOp, Op.isKillAll]
    have e := add_request_effects s port msg
    refine ⟨?_, ?_, ?_⟩
    · intro hp
      unfold PortsInv at hp ⊢
      rw [e.1, e.2.1]
      exact hp
    · intro hk
      unfold StepKeysInv at hk ⊢
      rw [e.2.2.2.2]
      cases port with
      | none => exact hk
      | some p => exact dictInsert_keys_nodup _ _ _ hk
    · intro _ hw
      unfold WorkersInv at hw ⊢
      obtain ⟨hw1, hw2, hw3⟩ := hw
      refine ⟨e.2.2.1.trans hw1, ?_, ?_⟩ <;>
        rcases e.2.2.2.1 with he | ⟨he, hlt⟩ <;> omega
  | avail =>
    dsimp only [applyOp, Op.isKillAll]
    have e := worker_available_effects s
    refine ⟨e.2.2.2, ?_, ?_⟩
    · intro hk
      unfold StepKeysInv at hk ⊢
      rw [e.1]
      exact hk
    · intro _ hw
      unfold WorkersInv at hw ⊢
      obtain ⟨hw1, hw2, hw3⟩ := hw
      refine ⟨e.2.1.trans hw1, ?_, ?_⟩ <;>
        rcases e.2.2.1 with he | ⟨he, hlt⟩ <;> omega
  | proc port now =>
    dsimp only [applyOp, Op.isKillAll]
    have e := process_request_preserves s port now
    refine ⟨e.2.2.1, e.2.2.2, ?_⟩
    intro _ hw
    unfold WorkersInv at hw ⊢
    obtain ⟨hw1, hw2, hw3⟩ := hw
    have hn := e.2.1
    exact ⟨e.1.trans hw1, by omega, by omega⟩
  | check now signals =>
    dsimp only [applyOp, Op.isKillAll]
    have e := check_workers_preserves s now signals
    refine ⟨e.2.2.2.2, ?_, ?_⟩
    · intro hk
      unfold StepKeysInv at hk ⊢
      rw [e.2.2.2.1]
      exact hk
    · intro _ hw
      unfold WorkersInv at hw ⊢
      obtain ⟨hw1, hw2, hw3⟩ := hw
      have h1 := e.2.1
      have h2 := e.2.2.1 hw2
      exact ⟨e.1.trans hw1, by omega, by omega⟩
  | killAll signals =>
    dsimp only [applyOp, Op.isKillAll]
    have e := kill_all_fields signals s
    refine ⟨?_, ?_, ?_⟩
    · intro hp
      unfold PortsInv at hp ⊢
      rw [e.1, e.2.1]
      exact hp
    · intro hk
      unfold StepKeysInv at hk ⊢
      rw [e.2.2.1]
      exact hk
    · intro hfalse
      exact absurd hfalse (by simp)

theorem runOps_invariants (mw t0 : Nat) (ops : List Op) :
    PortsInv (runOps mw t0 ops) ∧ StepKeysInv (runOps mw t0 ops) := by
  suffices h : ∀ s, PortsInv s → StepKeysInv s →
      PortsInv (ops.foldl applyOp s) ∧ StepKeysInv (ops.foldl applyOp s) by
    refine h (WorkerManager.init mw t0) ?_ ?_
    · exact ⟨List.nodup_nil, List.nodup_nil,
        fun q hq => absurd hq (List.not_mem_nil q)⟩
    · exact List.nodup_nil
  induction ops with
  | nil => exact fun s hp hk => ⟨hp, hk⟩
  | cons op rest ih =>
    intro s hp hk
    have e := applyOp_preserves 0 s op
    exact ih (applyOp s op) (e.1 hp) (e.2.1 hk)

theorem runOps_workers_inv (mw t0 : Nat) (hmw : 1 ≤ mw) (ops : List Op)
    (hops : ∀ op ∈ ops, op.isKillAll = false) :
    WorkersInv mw (runOps mw t0 ops) := by
  suffices h : ∀ s, WorkersInv mw s → (∀ op ∈ ops, op.isKillAll = false) →
      WorkersInv mw (ops.foldl applyOp s) by
    refine h (WorkerManager.init mw t0) ?_ hops
    unfold WorkersInv
    exact ⟨rfl, le_refl _, hmw⟩
  clear hops
  induction ops with
  | nil => exact fun s hw _ => hw
  | cons op rest ih =>
    intro s hw hops
    exact ih (applyOp s op)
      ((applyOp_preserves mw s op).2.2 (hops op (List.mem_cons_self op rest))
        hw)
      (fun o ho => hops o (List.mem_cons_of_mem op ho))

/-! ## Claim C3: at most one pending step request per port -/

/-- C3: in every reachable manager state, the pending step/workflow
table has at most one entry for any port; a second `add_request` on the
same port before delivery leaves exactly one entry for it, holding the
newer message (replacement, not queueing). -/
theorem C3_at_most_one_step_request (mw t0 : Nat) (ops : List Op)
    (p m1 m2 : Nat) :
    (runOps mw t0 ops).step_requests.countP (fun q => q.1 == p) ≤ 1 ∧
    (((runOps mw t0 ops).add_request (some p) m1).add_request (some p)
        m2).step_requests.countP (fun q => q.1 == p) = 1 ∧
    dictLookup (((runOps mw t0 ops).add_request (some p) m1).add_request
        (some p) m2).step_requests p = some m2 := by
  have hk := (runOps_invariants mw t0 ops).2
  unfold StepKeysInv at hk
  rw [add_request_some_steps, add_request_some_steps]
  have hk1 : ((dictInsert (runOps mw t0 ops).step_requests p
      m1).map Prod.fst).Nodup := dictInsert_keys_nodup _ _ _ hk
  exact ⟨countP_key_le_one _ _ hk, countP_dictInsert _ _ _ hk1,
    dictLookup_dictInsert_self _ _ _⟩

/-! ## Claim C4: available and claimed ports stay disjoint -/

/-- C4: in every state reachable from a fresh manager via the public
operations, `available_ports` and `claimed_ports` are disjoint; and when
`process_request` delivers work to a port without raising (the port
becomes busy), that port belongs to neither set afterwards. -/
theorem C4_available_claimed_disjoint (mw t0 : Nat) (ops : List Op)
    (q p now m : Nat) :
    (q ∈ (runOps mw t0 ops).available_ports →
      q ∉ (runOps mw t0 ops).claimed_ports) ∧
    (((runOps mw t0 ops).process_request p now).raised = false →
      ((runOps mw t0 ops).process_request p now).reply = Reply.payload m →
      p ∉ ((runOps mw t0 ops).process_request p now).state.available_ports ∧
      p ∉ ((runOps mw t0 ops).process_request p now).state.claimed_ports) := by
  have hp := (runOps_invariants mw t0 ops).1
  refine ⟨fun hq => hp.2.2 q hq, ?_⟩
  intro hraise hreply
  rcases WorkerManager.process_request_cases (runOps mw t0 ops) p now with
    ⟨m', _, hc, heq⟩ | ⟨m', _, hc, heq⟩ | ⟨_, hc, heq⟩ | ⟨m', _, hc, hg, heq⟩ |
    ⟨_, hc, hsub, heq⟩
  · rw [heq]
    constructor
    · dsimp only
      intro hmem
      exact hp.2.2 p hmem hc
    · exact not_mem_setRemove _ _
  · rw [heq] at hraise
    exact absurd hraise (by simp)
  · rw [heq] at hreply
    exact absurd hreply (by simp)
  · rw [heq]
    constructor
    · dsimp only
      split
      · exact not_mem_setRemove _ _
      · next hneg => exact hneg
    · exact hc
  · rw [heq] at hreply
    exact absurd hreply (by simp)

/-- C4 (witness): after making port 4 available, it is not claimed, and a
delivery never leaves the delivered port in either set. -/
theorem C4_available_claimed_disjoint_witness :
    (4 ∈ (runOps 2 0 [Op.proc 4 0]).available_ports →
      4 ∉ (runOps 2 0 [Op.proc 4 0]).claimed_ports) ∧
    (((runOps 2 0 [Op.proc 4 0]).process_request 4 1).raised = false →
      ((runOps 2 0 [Op.proc 4 0]).process_request 4 1).reply =
        Reply.payload 0 →
      4 ∉ ((runOps 2 0 [Op.proc 4 0]).process_request
        4 1).state.available_ports ∧
      4 ∉ ((runOps 2 0 [Op.proc 4 0]).process_request
        4 1).state.claimed_ports) :=
  C4_available_claimed_disjoint 2 0 [Op.proc 4 0] 4 4 1 0

/-! ## Claim C6: worker-count bounds -/

/-- C6 (counterexample): a fresh pool created with `max_workers = 0` — a
configuration the source explicitly anticipates ("max_procs could be
incorrectly set to be 0 or less") — already has one worker, exceeding the
cap. -/
theorem C6_counterexample :
    (runOps 0 0 []).num_workers = 1 ∧
    (runOps 0 0 []).max_workers = 0 ∧
    ¬ ((runOps 0 0 []).num_workers ≤ (runOps 0 0 []).max_workers) := by
  decide

/-- C6 (amended): provided `max_workers ≥ 1`, in every state reachable
through the active-pool operations (`add_request`, `worker_available`,
`process_request`, `check_workers`; `kill_all` ends the pool), the live
worker count stays between 1 and `max_workers`: spawns happen only
strictly below the cap and idle reclamation retires workers only while
the count strictly exceeds 1. -/
theorem C6_worker_count_bounds (mw t0 : Nat) (hmw : 1 ≤ mw) (ops : List Op)
    (hops : ∀ op ∈ ops, op.isKillAll = false) :
    1 ≤ (runOps mw t0 ops).num_workers ∧
    (runOps mw t0 ops).num_workers ≤ mw := by
  have h := runOps_workers_inv mw t0 hmw ops hops
  unfold WorkersInv at h
  exact ⟨h.2.1, h.2.2⟩

/-- C6 (witness): a pool capped at 2 after a substep submission and a
`worker_available` call. -/
theorem C6_worker_count_bounds_witness :
    1 ≤ (runOps 2 0 [Op.add none 7, Op.avail]).num_workers ∧
    (runOps 2 0 [Op.add none 7, Op.avail]).num_workers ≤ 2 :=
  C6_worker_count_bounds 2 0 (by decide) [Op.add none 7, Op.avail]
    (by decide)

end SosWorkers
